import Mathlib

/-!
Verification of the tone-scoring engine of the colour-analysis camera app.

The engine lives in src/utils/toneEvaluator.ts.  The embedding below models
JavaScript numbers by exact rationals; the four transcendental library
functions the engine calls (Math.cbrt, Math.pow with exponent 2.4,
Math.hypot, Math.atan2 scaled to degrees) are abstracted into a record of
rational functions called MathPrims, since their exact values never decide
any claim; facts the JS standard guarantees about them (such as
atan2 0 0 = 0) appear as explicit hypotheses where needed.

JavaScript special values (Infinity, -Infinity, NaN) are reachable in the
engine: hueSectorDistance returns Infinity when the sector list is empty and
that value then flows through min, division, multiplication, addition,
subtraction, clamping and rounding.  The inductive type JSNum models a JS
number as either a finite rational or one of the three special values, and
the js-prefixed operations mirror the IEEE-754 / ECMAScript rules for them
(finite arithmetic is exact rational arithmetic).

Mutation: evaluateTone sorts profile.matchBuckets in place via Array.sort.
The embedding therefore returns the pair (result, profile-after-call); the
profile component differs from the argument exactly by the in-place sort.
ECMAScript Array.sort is stable, and the comparator (a, b) => b.minScore -
a.minScore orders descending by minScore; insertByScoreDesc below is the
stable descending insertion sort with identical observable behaviour.
-/

/-! ## JavaScript numbers with special values -/

inductive JSNum where
  | num (q : ℚ)
  | posInf
  | negInf
  | nan
deriving DecidableEq

/-- JS addition restricted to the shapes the engine produces. -/
def jsAdd : JSNum → JSNum → JSNum
  | .nan, _ => .nan
  | _, .nan => .nan
  | .posInf, .negInf => .nan
  | .negInf, .posInf => .nan
  | .posInf, _ => .posInf
  | _, .posInf => .posInf
  | .negInf, _ => .negInf
  | _, .negInf => .negInf
  | .num a, .num b => .num (a + b)

/-- JS subtraction. -/
def jsSub : JSNum → JSNum → JSNum
  | .nan, _ => .nan
  | _, .nan => .nan
  | .posInf, .posInf => .nan
  | .negInf, .negInf => .nan
  | .posInf, _ => .posInf
  | .negInf, _ => .negInf
  | _, .posInf => .negInf
  | _, .negInf => .posInf
  | .num a, .num b => .num (a - b)

/-- JS multiplication by a finite number (Infinity * 0 = NaN). -/
def jsMulQ : JSNum → ℚ → JSNum
  | .nan, _ => .nan
  | .num a, q => .num (a * q)
  | .posInf, q => if 0 < q then .posInf else if q < 0 then .negInf else .nan
  | .negInf, q => if 0 < q then .negInf else if q < 0 then .posInf else .nan

/-- JS division by a finite number.  A zero divisor behaves like +0. -/
def jsDivQ : JSNum → ℚ → JSNum
  | .nan, _ => .nan
  | .posInf, q => if 0 < q then .posInf else if q < 0 then .negInf else .posInf
  | .negInf, q => if 0 < q then .negInf else if q < 0 then .posInf else .negInf
  | .num a, q =>
    if q = 0 then (if 0 < a then .posInf else if a < 0 then .negInf else .nan)
    else .num (a / q)

/-- JS Math.min: NaN is absorbing. -/
def jsMin : JSNum → JSNum → JSNum
  | .nan, _ => .nan
  | _, .nan => .nan
  | .negInf, _ => .negInf
  | _, .negInf => .negInf
  | .posInf, b => b
  | a, .posInf => a
  | .num a, .num b => .num (min a b)

/-- JS Math.max: NaN is absorbing. -/
def jsMax : JSNum → JSNum → JSNum
  | .nan, _ => .nan
  | _, .nan => .nan
  | .posInf, _ => .posInf
  | _, .posInf => .posInf
  | .negInf, b => b
  | a, .negInf => a
  | .num a, .num b => .num (max a b)

/-- The JS comparison x <= y (false whenever a NaN is involved). -/
def jsLe : JSNum → JSNum → Bool
  | .nan, _ => false
  | _, .nan => false
  | .negInf, _ => true
  | _, .posInf => true
  | .posInf, _ => false
  | _, .negInf => false
  | .num a, .num b => decide (a ≤ b)

/-- The JS comparison q < x for finite q (false whenever x is NaN). -/
def jsLtQ (q : ℚ) : JSNum → Bool
  | .nan => false
  | .posInf => true
  | .negInf => false
  | .num a => decide (q < a)

/-- The JS comparison x >= q for finite q (false whenever x is NaN). -/
def jsGeQ : JSNum → ℚ → Bool
  | .nan, _ => false
  | .posInf, _ => true
  | .negInf, _ => false
  | .num a, q => decide (q ≤ a)

/-- JS Math.round: floor (x + 1/2), matching ECMAScript round-half-up. -/
def jsRound (x : ℚ) : ℤ := ⌊x + 1 / 2⌋

/-- round1 from the source: Math.round (x * 10) / 10. -/
def round1 (x : ℚ) : ℚ := (jsRound (x * 10) : ℚ) / 10

/-- round2 from the source: Math.round (x * 100) / 100. -/
def round2 (x : ℚ) : ℚ := (jsRound (x * 100) : ℚ) / 100

/-- round1 lifted to JSNum: NaN and infinities round to themselves. -/
def jsRound1 : JSNum → JSNum
  | .num q => .num (round1 q)
  | .posInf => .posInf
  | .negInf => .negInf
  | .nan => .nan

/-! ## Data model (types from toneEvaluator.ts) -/

structure Lab where
  L : ℚ
  a : ℚ
  b : ℚ
deriving DecidableEq

structure RangeRule where
  min : ℚ
  max : ℚ
  weight : ℚ
deriving DecidableEq

structure HueSectorsRule where
  sectors : List (ℚ × ℚ)
  toleranceDegrees : ℚ
  weight : ℚ
deriving DecidableEq

structure WarmthPenaltyRule where
  lab_b_gt : ℚ
  penalty : ℚ
deriving DecidableEq

structure MatchBucket where
  minScore : ℚ
  label : String
deriving DecidableEq

structure ToneProfile where
  label : String
  lightness : RangeRule
  chroma : RangeRule
  hueSectors : HueSectorsRule
  warmthPenalty : Option WarmthPenaltyRule
  matchBuckets : List MatchBucket
deriving DecidableEq

structure ToneResult where
  input : String
  toneLabel : String
  lab : Lab
  chroma : ℚ
  hue : ℚ
  score : JSNum
  matchLevel : String
  notes : List String
deriving DecidableEq

/-- The transcendental Math functions the engine calls, abstracted as
rational functions: cbrt is Math.cbrt, powGamma is x => Math.pow x 2.4,
hypotQ is Math.hypot, atan2deg is (y, x) => Math.atan2 y x * 180 / PI. -/
structure MathPrims where
  cbrt : ℚ → ℚ
  powGamma : ℚ → ℚ
  hypotQ : ℚ → ℚ → ℚ
  atan2deg : ℚ → ℚ → ℚ

/-! ## hexToRgb and JS parseInt (radix 16) -/

/-- Value of one hexadecimal digit character. -/
def hexVal (c : Char) : Option ℕ :=
  if '0' ≤ c ∧ c ≤ '9' then some (c.toNat - '0'.toNat)
  else if 'a' ≤ c ∧ c ≤ 'f' then some (c.toNat - 'a'.toNat + 10)
  else if 'A' ≤ c ∧ c ≤ 'F' then some (c.toNat - 'A'.toNat + 10)
  else none

/-- Longest leading run of hexadecimal digits, as digit values. -/
def takeHexDigits : List Char → List ℕ
  | [] => []
  | c :: cs =>
    match hexVal c with
    | some v => v :: takeHexDigits cs
    | none => []

/-- JS parseInt with radix 16: skip leading whitespace, optional sign,
optional 0x / 0X, then the longest hex-digit run; NaN (none) if that run
is empty. -/
def parseInt16 (s : String) : Option ℤ :=
  let cs := s.data.dropWhile (fun c => c.isWhitespace)
  let sign : ℤ := match cs with
    | '-' :: _ => -1
    | _ => 1
  let cs := match cs with
    | '-' :: rest => rest
    | '+' :: rest => rest
    | l => l
  let cs := match cs with
    | '0' :: 'x' :: rest => rest
    | '0' :: 'X' :: rest => rest
    | l => l
  let ds := takeHexDigits cs
  if ds.isEmpty then none
  else some (sign * (ds.foldl (fun n d => 16 * n + (d : ℤ)) 0))

/-- JS ToInt32 followed by reading the result as an unsigned 32-bit value;
NaN converts to 0.  Bitwise ops in JS work on this representation. -/
def toUint32 : Option ℤ → ℕ
  | none => 0
  | some n => (n % (2 ^ 32 : ℤ)).toNat

/-- JS (n >> k) & 255 for the values produced by parseInt: arithmetic
shift of the 32-bit two's-complement value, then mask to a byte.  Masking
with 255 keeps only bits k..k+7, so the shift-then-mask equals taking the
corresponding byte of the unsigned 32-bit representation whenever
k + 8 <= 32, which covers the shifts 16, 8, 0 used by hexToRgb. -/
def shrByte (n : Option ℤ) (k : ℕ) : ℕ := toUint32 n / 2 ^ k % 256

/-- Drop a single leading hash, as the regex replace of /^#/ does. -/
def stripHash (s : String) : String :=
  match s.data with
  | '#' :: rest => String.mk rest
  | _ => s

/-- Double every character, as split-map-join does for 3-digit shorthand. -/
def dupChars : List Char → List Char
  | [] => []
  | c :: cs => c :: c :: dupChars cs

/-- hexToRgb from the source.  Throwing is modelled by Except.error.
Note that only the length is validated; non-hex characters make parseInt
return NaN, which the bitwise ops silently coerce to 0. -/
def hexToRgb (hex : String) : Except String (ℕ × ℕ × ℕ) :=
  let s := stripHash hex
  if s.length ≠ 3 ∧ s.length ≠ 6 then .error ("Bad hex")
  else
    let h := if s.length = 3 then String.mk (dupChars s.data) else s
    let n := parseInt16 h
    .ok (shrByte n 16, shrByte n 8, shrByte n 0)

/-! ## Colour-space conversion (exact rational arithmetic) -/

/-- srgbToLinear from the source. -/
def srgbToLinear (P : MathPrims) (u8 : ℚ) : ℚ :=
  let v := u8 / 255
  if v ≤ 0.04045 then v / 12.92 else P.powGamma ((v + 0.055) / 1.055)

/-- rgbToXyz from the source (sRGB D65 matrix). -/
def rgbToXyz (P : MathPrims) (r8 g8 b8 : ℚ) : ℚ × ℚ × ℚ :=
  let r := srgbToLinear P r8
  let g := srgbToLinear P g8
  let b := srgbToLinear P b8
  (0.4124564 * r + 0.3575761 * g + 0.1804375 * b,
   0.2126729 * r + 0.7151522 * g + 0.0721750 * b,
   0.0193339 * r + 0.1191920 * g + 0.9503041 * b)

/-- The CIE f nonlinearity from the source. -/
def labF (P : MathPrims) (t : ℚ) : ℚ :=
  let eps : ℚ := (6 / 29) ^ 3
  let k : ℚ := (29 / 3) ^ 2 / 3
  if t > eps then P.cbrt t else k * t + 4 / 29

/-- xyzToLab from the source (D65 white point). -/
def xyzToLab (P : MathPrims) (X Y Z : ℚ) : Lab :=
  let fx := labF P (X / 0.95047)
  let fy := labF P (Y / 1.0)
  let fz := labF P (Z / 1.08883)
  ⟨116 * fy - 16, 500 * (fx - fy), 200 * (fy - fz)⟩

/-- rgbToLab from the source. -/
def rgbToLab (P : MathPrims) (r g b : ℚ) : Lab :=
  let xyz := rgbToXyz P r g b
  xyzToLab P xyz.1 xyz.2.1 xyz.2.2

/-- labHue from the source: atan2 in degrees, negatives shifted by 360. -/
def labHue (P : MathPrims) (lab : Lab) : ℚ :=
  let h := P.atan2deg lab.b lab.a
  if h < 0 then h + 360 else h

/-! ## Penalty helpers -/

/-- clamp from the source: Math.max (mn, Math.min (x, mx)). -/
def clamp (mn x mx : JSNum) : JSNum := jsMax mn (jsMin x mx)

/-- rangePenalty from the source.  The JS expression (max - min) / 2 || 1
replaces the half-width by 1 exactly when it is zero (falsy). -/
def rangePenalty (value : ℚ) (rule : RangeRule) : ℚ :=
  if rule.min ≤ value ∧ value ≤ rule.max then 0
  else
    let dist := if value < rule.min then rule.min - value else value - rule.max
    let half := if (rule.max - rule.min) / 2 = 0 then 1 else (rule.max - rule.min) / 2
    min (dist / half * rule.weight) rule.weight

/-- inSector from the source, including the wrap-around case. -/
def inSector (h a b : ℚ) : Bool :=
  if a ≤ b then decide (a ≤ h ∧ h ≤ b) else decide (a ≤ h ∨ h ≤ b)

/-- The JS remainder q % 360 for a nonnegative dividend. -/
def fmod360 (q : ℚ) : ℚ := q - 360 * ⌊q / 360⌋

/-- The inner distance helper d of degToEdgeDistance. -/
def circDistJS (x y : ℚ) : ℚ :=
  let dd := fmod360 |x - y|
  if dd > 180 then 360 - dd else dd

/-- degToEdgeDistance from the source. -/
def degToEdgeDistance (h a b : ℚ) : ℚ := min (circDistJS h a) (circDistJS h b)

/-- The loop body of hueSectorDistance: best starts at Infinity, any
containing sector returns 0 immediately, otherwise best accumulates the
minimum edge distance. -/
def hueLoop (h : ℚ) : List (ℚ × ℚ) → JSNum → JSNum
  | [], best => best
  | s :: rest, best =>
    if inSector h s.1 s.2 then .num 0
    else hueLoop h rest (jsMin best (.num (degToEdgeDistance h s.1 s.2)))

/-- hueSectorDistance from the source; Infinity when no sector exists. -/
def hueSectorDistance (h : ℚ) (sectors : List (ℚ × ℚ)) : JSNum :=
  hueLoop h sectors .posInf

/-- The hue-penalty block of evaluateTone: tolerance falls back to 60 when
falsy (zero), the fraction min (d / t) 1 is scaled by the rule weight. -/
def huePts (h : ℚ) (rule : HueSectorsRule) : JSNum :=
  let d := hueSectorDistance h rule.sectors
  let t := if rule.toleranceDegrees = 0 then 60 else rule.toleranceDegrees
  jsMulQ (jsMin (jsDivQ d t) (.num 1)) rule.weight

/-- The warmth-penalty points of evaluateTone (0 when the rule is absent
or the threshold is not exceeded). -/
def warmthPts (labb : ℚ) : Option WarmthPenaltyRule → ℚ
  | some w => if labb > w.lab_b_gt then w.penalty else 0
  | none => 0

/-- The two lightness notes, in push order. -/
def lightNotes (L : ℚ) (rule : RangeRule) : List String :=
  (if L < rule.min then [("too dark for this tone")] else []) ++
  (if L > rule.max then [("too light/washed")] else [])

/-- The two chroma notes, in push order. -/
def chromaNotes (C : ℚ) (rule : RangeRule) : List String :=
  (if C < rule.min then [("too gray/soft")] else []) ++
  (if C > rule.max then [("too saturated/bright")] else [])

/-! ## Bucket sort and match level -/

/-- Stable descending insertion by minScore, matching the observable
behaviour of the stable Array.sort with comparator b.minScore - a.minScore. -/
def insertByScoreDesc (x : MatchBucket) : List MatchBucket → List MatchBucket
  | [] => [x]
  | y :: ys =>
    if y.minScore ≤ x.minScore then x :: y :: ys
    else y :: insertByScoreDesc x ys

/-- The sorted bucket list produced (and stored back into the profile) by
the in-place sort in evaluateTone. -/
def sortBucketsDesc : List MatchBucket → List MatchBucket
  | [] => []
  | x :: xs => insertByScoreDesc x (sortBucketsDesc xs)

/-- The match-level selection of evaluateTone: first bucket of the
descending-sorted list whose minScore the score reaches, else the fallback. -/
def matchLevelOf (score : JSNum) (buckets : List MatchBucket) : String :=
  match (sortBucketsDesc buckets).find? (fun bk => jsGeQ score bk.minScore) with
  | some bk => bk.label
  | none => ("not a match")

/-! ## evaluateTone -/

/-- Sum of the four penalty contributions, in accumulation order. -/
def totalPenalty (P : MathPrims) (lab : Lab) (profile : ToneProfile) : JSNum :=
  jsAdd
    (jsAdd
      (.num (rangePenalty lab.L profile.lightness +
             rangePenalty (P.hypotQ lab.a lab.b) profile.chroma))
      (huePts (labHue P lab) profile.hueSectors))
    (.num (warmthPts lab.b profile.warmthPenalty))

/-- The score before final rounding: clamp (0, 100 - penalty, 100). -/
def rawScore (P : MathPrims) (lab : Lab) (profile : ToneProfile) : JSNum :=
  clamp (.num 0) (jsSub (.num 100) (totalPenalty P lab profile)) (.num 100)

/-- The hue note: pushed exactly when the sector distance is positive
(in JS, Infinity counts as positive). -/
def hueNotes (H : ℚ) (rule : HueSectorsRule) : List String :=
  if jsLtQ 0 (hueSectorDistance H rule.sectors) then [("leans outside cool hue sectors")]
  else []

/-- The warmth note: pushed exactly when the optional rule is present and
the Lab b channel exceeds its threshold. -/
def warmthNotes (labb : ℚ) : Option WarmthPenaltyRule → List String
  | some w => if labb > w.lab_b_gt then [("yellow warmth present")] else []
  | none => []

/-- The notes list, in push order. -/
def evalNotes (P : MathPrims) (lab : Lab) (profile : ToneProfile) : List String :=
  lightNotes lab.L profile.lightness ++
  chromaNotes (P.hypotQ lab.a lab.b) profile.chroma ++
  hueNotes (labHue P lab) profile.hueSectors ++
  warmthNotes lab.b profile.warmthPenalty

/-- The successful branch of evaluateTone: builds the result record and the
profile as the caller observes it after the call (matchBuckets sorted in
place). -/
def evalLab (P : MathPrims) (hex : String) (lab : Lab) (profile : ToneProfile) :
    ToneResult × ToneProfile :=
  let score := rawScore P lab profile
  (⟨hex, profile.label, lab,
    round2 (P.hypotQ lab.a lab.b),
    round1 (labHue P lab),
    jsRound1 score,
    matchLevelOf score profile.matchBuckets,
    evalNotes P lab profile⟩,
   { profile with matchBuckets := sortBucketsDesc profile.matchBuckets })

/-- evaluateTone from the source.  The Except models the thrown Bad hex
error; the pair models the returned ToneResult together with the caller's
profile after the call. -/
def evaluateTone (P : MathPrims) (hex : String) (profile : ToneProfile) :
    Except String (ToneResult × ToneProfile) :=
  match hexToRgb hex with
  | .error e => .error e
  | .ok rgb => .ok (evalLab P hex (rgbToLab P rgb.1 rgb.2.1 rgb.2.2) profile)

/-! ## Projections used to state the claims -/

/-- Whether an Except succeeded. -/
def exOk {α : Type} : Except String α → Bool
  | .ok _ => true
  | .error _ => false

/-- The score of a run; NaN when the run throws (so that bound claims can
never be satisfied through the error branch). -/
def scoreOf (P : MathPrims) (hex : String) (profile : ToneProfile) : JSNum :=
  match evaluateTone P hex profile with
  | .ok x => x.1.score
  | .error _ => .nan

/-- The notes of a run; empty when the run throws. -/
def notesOf (P : MathPrims) (hex : String) (profile : ToneProfile) : List String :=
  match evaluateTone P hex profile with
  | .ok x => x.1.notes
  | .error _ => []

/-- The match level of a run; the error text when the run throws. -/
def levelOf (P : MathPrims) (hex : String) (profile : ToneProfile) : String :=
  match evaluateTone P hex profile with
  | .ok x => x.1.matchLevel
  | .error e => e

/-- The caller's profile after a run: the in-place sort is visible on
success, and an early throw leaves the profile untouched. -/
def postProfile (P : MathPrims) (hex : String) (profile : ToneProfile) : ToneProfile :=
  match evaluateTone P hex profile with
  | .ok x => x.2
  | .error _ => profile

/-! ## Concrete instances for counterexamples and witnesses -/

/-- A concrete MathPrims instance (the claims settled on concrete inputs
never reach the abstracted functions in a value-relevant way). -/
def P0 : MathPrims := ⟨fun _ => 0, fun _ => 0, fun _ _ => 0, fun _ _ => 0⟩

/-- A small sample profile. -/
def demoProfile : ToneProfile :=
  ⟨("summer cool"), ⟨0, 100, 0⟩, ⟨0, 200, 0⟩, ⟨[(0, 360)], 60, 0⟩, none,
   [⟨0, ("Poor")⟩]⟩

/-- A profile whose buckets are not in descending minScore order. -/
def mutProfile : ToneProfile :=
  ⟨("mut"), ⟨0, 100, 0⟩, ⟨0, 200, 0⟩, ⟨[(0, 360)], 60, 0⟩, none,
   [⟨0, ("Poor")⟩, ⟨90, ("Perfect")⟩]⟩

/-- A profile driving the hue block to NaN: no sectors (distance Infinity),
negative tolerance (fraction -Infinity), zero weight (points NaN). -/
def nanProfile : ToneProfile :=
  ⟨("degenerate"), ⟨0, 100, 0⟩, ⟨0, 200, 0⟩, ⟨[], -1, 0⟩, none, [⟨0, ("Poor")⟩]⟩

/-- A profile with an empty sector list and nonnegative tolerance. -/
def emptySectorProfile : ToneProfile :=
  ⟨("empty sectors"), ⟨0, 100, 0⟩, ⟨0, 200, 0⟩, ⟨[], 60, 10⟩, none, [⟨0, ("Poor")⟩]⟩

/-- A profile with no match buckets at all. -/
def noBucketProfile : ToneProfile :=
  ⟨("no buckets"), ⟨0, 100, 0⟩, ⟨0, 200, 0⟩, ⟨[(0, 360)], 60, 0⟩, none, []⟩

/-! ## Spec-side formulas and concrete profiles used by the claims -/

/-- The claim's penalty formula, stated from the spec's words: the ramp
divisor is max ((max - min) / 2, 1). -/
def claimRangeFormula (value : ℚ) (rule : RangeRule) : ℚ :=
  if rule.min ≤ value ∧ value ≤ rule.max then 0
  else
    let dist := if value < rule.min then rule.min - value else value - rule.max
    min (dist / max ((rule.max - rule.min) / 2) 1) 1 * rule.weight

/-- The amended penalty formula: the ramp divisor is (max - min) / 2 itself,
replaced by 1 only when that half-width is zero. -/
def amendedRangeFormula (value : ℚ) (rule : RangeRule) : ℚ :=
  if rule.min ≤ value ∧ value ≤ rule.max then 0
  else
    let dist := if value < rule.min then rule.min - value else value - rule.max
    let half := if (rule.max - rule.min) / 2 = 0 then 1 else (rule.max - rule.min) / 2
    min (dist / half) 1 * rule.weight

/-- The code's distance to the violated bound, for out-of-range values. -/
def outDist (v : ℚ) (rule : RangeRule) : ℚ :=
  if v < rule.min then rule.min - v else v - rule.max

/-- A profile for which black triggers all four notes. -/
def fourNoteProfile : ToneProfile :=
  ⟨("four notes"), ⟨50, 60, 30⟩, ⟨5, 200, 10⟩, ⟨[], 60, 10⟩, some ⟨-1, 5⟩,
   [⟨0, ("Poor")⟩]⟩

/-- Sector containment as the spec words it: inclusive containment for
start <= end, wrap-around disjunction for start > end. -/
def specContains (h : ℚ) (s : ℚ × ℚ) : Prop :=
  if s.1 ≤ s.2 then s.1 ≤ h ∧ h ≤ s.2 else s.1 ≤ h ∨ h ≤ s.2

/-- Shortest circular distance between two angles (at most 180 degrees),
as the spec words it. -/
def specCircDist (x y : ℚ) : ℚ :=
  min (fmod360 |x - y|) (360 - fmod360 |x - y|)

/-- Distance from a hue to the nearer edge of one sector. -/
def specEdgeDist (h : ℚ) (s : ℚ × ℚ) : ℚ :=
  min (specCircDist h s.1) (specCircDist h s.2)

/-! ## Shared lemmas -/

lemma exOk_hexToRgb (hex : String) :
    exOk (hexToRgb hex) = true ↔
      ((stripHash hex).length = 3 ∨ (stripHash hex).length = 6) := by
  by_cases h : (stripHash hex).length ≠ 3 ∧ (stripHash hex).length ≠ 6
  · simp only [hexToRgb, if_pos h, exOk]
    constructor
    · intro hc; cases hc
    · intro hc; rcases h with ⟨h3, h6⟩; rcases hc with hc | hc
      · exact absurd hc h3
      · exact absurd hc h6
  · simp only [hexToRgb, if_neg h, exOk, true_iff]
    rcases not_and_or.mp h with h3 | h6
    · exact Or.inl (not_not.mp h3)
    · exact Or.inr (not_not.mp h6)

lemma exOk_evaluateTone (P : MathPrims) (hex : String) (profile : ToneProfile) :
    exOk (evaluateTone P hex profile) = exOk (hexToRgb hex) := by
  cases h : hexToRgb hex <;> simp [evaluateTone, h, exOk]

lemma evaluateTone_ok_iff (P : MathPrims) (hex : String) (profile : ToneProfile) :
    exOk (evaluateTone P hex profile) = true ↔
      ((stripHash hex).length = 3 ∨ (stripHash hex).length = 6) := by
  rw [exOk_evaluateTone]; exact exOk_hexToRgb hex

/-- Claim C1 (amended): hexToRgb, and hence evaluateTone, fails exactly when
the input's length after stripping an optional leading hash is neither 3 nor
6; in particular "#12345" fails.  Strings of valid length made of
non-hexadecimal characters are NOT rejected: parseInt coerces them through
NaN to RGB zeros (see the counterexample for "red"). -/
theorem claim_C1 (P : MathPrims) (hex : String) (profile : ToneProfile) :
    (exOk (evaluateTone P hex profile) = true ↔
      ((stripHash hex).length = 3 ∨ (stripHash hex).length = 6)) ∧
    evaluateTone P ("#12345") profile = .error ("Bad hex") := by
  refine ⟨evaluateTone_ok_iff P hex profile, ?_⟩
  have h : hexToRgb ("#12345") = .error ("Bad hex") := rfl
  simp [evaluateTone, h]

/-- Claim C1 counterexample: evaluateTone accepts "red" (non-hex characters,
length 3) and treats it as black, instead of failing with InvalidFormat. -/
theorem claim_C1_cex :
    exOk (evaluateTone P0 ("red") demoProfile) = true ∧
    hexToRgb ("red") = .ok (0, 0, 0) := by
  constructor
  · with_unfolding_all decide
  · rfl

/-- Claim C1 witness: a well-formed 3-digit input is accepted. -/
theorem claim_C1_witness :
    exOk (evaluateTone P0 ("#abc") demoProfile) = true :=
  (claim_C1 P0 ("#abc") demoProfile).1.mpr (by decide)

/-! ## Sorting lemmas for the in-place bucket sort -/

lemma insertByScoreDesc_perm (x : MatchBucket) (l : List MatchBucket) :
    List.Perm (insertByScoreDesc x l) (x :: l) := by
  induction l with
  | nil => simp [insertByScoreDesc]
  | cons y ys ih =>
    unfold insertByScoreDesc
    by_cases h : y.minScore ≤ x.minScore
    · rw [if_pos h]
    · rw [if_neg h]
      exact (ih.cons y).trans (List.Perm.swap x y ys)

lemma sortBucketsDesc_perm (l : List MatchBucket) :
    List.Perm (sortBucketsDesc l) l := by
  induction l with
  | nil => exact List.Perm.refl _
  | cons x xs ih => exact (insertByScoreDesc_perm x _).trans (ih.cons x)

lemma insertByScoreDesc_pairwise (x : MatchBucket) (l : List MatchBucket)
    (h : List.Pairwise (fun a b => b.minScore ≤ a.minScore) l) :
    List.Pairwise (fun a b => b.minScore ≤ a.minScore) (insertByScoreDesc x l) := by
  induction l with
  | nil => simp [insertByScoreDesc]
  | cons y ys ih =>
    rcases List.pairwise_cons.mp h with ⟨hy, hys⟩
    unfold insertByScoreDesc
    by_cases hc : y.minScore ≤ x.minScore
    · rw [if_pos hc]
      refine List.pairwise_cons.mpr ⟨?_, h⟩
      intro b hb
      rcases List.mem_cons.mp hb with rfl | hb
      · exact hc
      · exact le_trans (hy b hb) hc
    · rw [if_neg hc]
      refine List.pairwise_cons.mpr ⟨?_, ih hys⟩
      intro b hb
      have hb2 := (insertByScoreDesc_perm x ys).mem_iff.mp hb
      rcases List.mem_cons.mp hb2 with rfl | hb2
      · exact le_of_not_le hc
      · exact hy b hb2

lemma sortBucketsDesc_pairwise (l : List MatchBucket) :
    List.Pairwise (fun a b => b.minScore ≤ a.minScore) (sortBucketsDesc l) := by
  induction l with
  | nil => simp [sortBucketsDesc]
  | cons x xs ih => exact insertByScoreDesc_pairwise x _ ih

/-- Claim C2 (amended): evaluateTone does mutate the caller's profile: on a
successful run the matchBuckets array has been sorted in place (a stable
descending sort by minScore, hence a permutation of the original); every
other profile field is unchanged, and a run that throws leaves the profile
untouched. -/
theorem claim_C2 (P : MathPrims) (hex : String) (profile : ToneProfile) :
    (postProfile P hex profile).label = profile.label ∧
    (postProfile P hex profile).lightness = profile.lightness ∧
    (postProfile P hex profile).chroma = profile.chroma ∧
    (postProfile P hex profile).hueSectors = profile.hueSectors ∧
    (postProfile P hex profile).warmthPenalty = profile.warmthPenalty ∧
    (exOk (evaluateTone P hex profile) = true →
      (postProfile P hex profile).matchBuckets = sortBucketsDesc profile.matchBuckets) ∧
    (exOk (evaluateTone P hex profile) = false → postProfile P hex profile = profile) ∧
    List.Perm (sortBucketsDesc profile.matchBuckets) profile.matchBuckets ∧
    List.Pairwise (fun a b => b.minScore ≤ a.minScore)
      (sortBucketsDesc profile.matchBuckets) := by
  cases h : hexToRgb hex with
  | error e =>
    simp [postProfile, evaluateTone, h, exOk, sortBucketsDesc_perm,
      sortBucketsDesc_pairwise]
  | ok rgb =>
    simp [postProfile, evaluateTone, h, exOk, evalLab, sortBucketsDesc_perm,
      sortBucketsDesc_pairwise]

/-- Claim C2 counterexample: after evaluating a valid colour against a
profile whose buckets are listed ascending, the caller's bucket list has
been reordered. -/
theorem claim_C2_cex :
    (postProfile P0 ("#000000") mutProfile).matchBuckets ≠ mutProfile.matchBuckets := by
  decide

/-- Claim C2 witness: the reordered list is exactly the descending sort. -/
theorem claim_C2_witness :
    (postProfile P0 ("#000000") mutProfile).matchBuckets =
      sortBucketsDesc mutProfile.matchBuckets :=
  (claim_C2 P0 ("#000000") mutProfile).2.2.2.2.2.1 (by decide)

/-! ## Claim C3: the range-penalty formula -/

/-- Claim C3 counterexample: for the rule (min 0, max 1, weight 10) at value
5/4 the code yields 5, while the claimed formula with divisor
max (half-width, 1) yields 5/2. -/
theorem claim_C3_cex :
    rangePenalty (5 / 4) ⟨0, 1, 10⟩ = 5 ∧
    claimRangeFormula (5 / 4) ⟨0, 1, 10⟩ = 5 / 2 ∧
    rangePenalty (5 / 4) ⟨0, 1, 10⟩ ≠ claimRangeFormula (5 / 4) ⟨0, 1, 10⟩ := by
  with_unfolding_all decide

/-- Claim C3 (amended): for nonnegative weight, the range penalty is 0 on
the closed interval and otherwise equals
min (dist / half, 1) * weight, where half is (max - min) / 2 when that is
nonzero and 1 otherwise, and dist is the distance to the violated bound. -/
theorem claim_C3 (value : ℚ) (rule : RangeRule) (hw : 0 ≤ rule.weight) :
    rangePenalty value rule = amendedRangeFormula value rule := by
  unfold rangePenalty amendedRangeFormula
  by_cases h : rule.min ≤ value ∧ value ≤ rule.max
  · rw [if_pos h, if_pos h]
  · rw [if_neg h, if_neg h]
    rw [min_mul_of_nonneg _ _ hw, one_mul]

/-- Claim C3 witness. -/
theorem claim_C3_witness :
    rangePenalty (5 / 4) ⟨0, 1, 10⟩ = amendedRangeFormula (5 / 4) ⟨0, 1, 10⟩ :=
  claim_C3 (5 / 4) ⟨0, 1, 10⟩ (by decide)

/-! ## Claim C7: the penalty ramp shape -/

lemma rangePenalty_outside (v : ℚ) (rule : RangeRule)
    (hout : v < rule.min ∨ rule.max < v)
    (hh : (rule.max - rule.min) / 2 ≠ 0) :
    rangePenalty v rule =
      min (outDist v rule / ((rule.max - rule.min) / 2) * rule.weight) rule.weight := by
  have hcond : ¬(rule.min ≤ v ∧ v ≤ rule.max) := by
    rcases hout with h | h
    · exact fun hc => absurd hc.1 (not_le.mpr h)
    · exact fun hc => absurd hc.2 (not_le.mpr h)
  unfold rangePenalty outDist
  rw [if_neg hcond, if_neg hh]

/-- Claim C7 counterexample: the rule (min 5, max 5, weight 10) satisfies
min <= max and weight >= 0, and the value 11/2 lies beyond the bound by at
least the half-width (which is 0), yet the penalty is 5, not the full
weight 10: for zero-width ranges the divisor falls back to 1, so the cap is
only reached at distance 1. -/
theorem claim_C7_cex :
    (5 : ℚ) ≤ 5 ∧ (0 : ℚ) ≤ 10 ∧ (5 : ℚ) < 11 / 2 ∧
    ((5 : ℚ) - 5) / 2 ≤ outDist (11 / 2) ⟨5, 5, 10⟩ ∧
    rangePenalty (11 / 2) ⟨5, 5, 10⟩ = 5 ∧
    rangePenalty (11 / 2) ⟨5, 5, 10⟩ ≠ 10 := by
  with_unfolding_all decide

/-- Claim C7 (amended): for every rule with min strictly below max and
strictly positive weight, the penalty is 0 on the closed interval, strictly
increasing in the distance to the violated bound while that distance stays
below the half-width, and equal to the full weight as soon as the distance
reaches the half-width. -/
theorem claim_C7 (rule : RangeRule) (hlt : rule.min < rule.max)
    (hw : 0 < rule.weight) :
    (∀ v, rule.min ≤ v → v ≤ rule.max → rangePenalty v rule = 0) ∧
    (∀ v1 v2, (v1 < rule.min ∨ rule.max < v1) → (v2 < rule.min ∨ rule.max < v2) →
      outDist v1 rule < outDist v2 rule →
      outDist v1 rule < (rule.max - rule.min) / 2 →
      rangePenalty v1 rule < rangePenalty v2 rule) ∧
    (∀ v, (v < rule.min ∨ rule.max < v) →
      (rule.max - rule.min) / 2 ≤ outDist v rule →
      rangePenalty v rule = rule.weight) := by
  have hhalf : 0 < (rule.max - rule.min) / 2 := by linarith
  have hhne : (rule.max - rule.min) / 2 ≠ 0 := ne_of_gt hhalf
  refine ⟨?_, ?_, ?_⟩
  · intro v h1 h2
    unfold rangePenalty
    rw [if_pos ⟨h1, h2⟩]
  · intro v1 v2 ho1 ho2 hlt12 hbelow
    rw [rangePenalty_outside v1 rule ho1 hhne, rangePenalty_outside v2 rule ho2 hhne]
    have hfrac1 : outDist v1 rule / ((rule.max - rule.min) / 2) < 1 :=
      (div_lt_one hhalf).mpr hbelow
    have hmul1 : outDist v1 rule / ((rule.max - rule.min) / 2) * rule.weight <
        rule.weight := by
      calc outDist v1 rule / ((rule.max - rule.min) / 2) * rule.weight
          < 1 * rule.weight := by
            exact mul_lt_mul_of_pos_right hfrac1 hw
        _ = rule.weight := one_mul _
    rw [min_eq_left (le_of_lt hmul1)]
    have hmul12 : outDist v1 rule / ((rule.max - rule.min) / 2) * rule.weight <
        outDist v2 rule / ((rule.max - rule.min) / 2) * rule.weight :=
      mul_lt_mul_of_pos_right (div_lt_div_of_pos_right hlt12 hhalf) hw
    exact lt_min hmul12 hmul1
  · intro v ho hge
    rw [rangePenalty_outside v rule ho hhne]
    have hfrac : 1 ≤ outDist v rule / ((rule.max - rule.min) / 2) :=
      (one_le_div hhalf).mpr hge
    have : rule.weight ≤ outDist v rule / ((rule.max - rule.min) / 2) * rule.weight :=
      le_mul_of_one_le_left (le_of_lt hw) hfrac
    rw [min_eq_right this]

/-- Claim C7 witness: a nondegenerate rule showing all three behaviours. -/
theorem claim_C7_witness :
    rangePenalty 5 ⟨0, 10, 20⟩ = 0 ∧
    rangePenalty (-1) ⟨0, 10, 20⟩ < rangePenalty (-2) ⟨0, 10, 20⟩ ∧
    rangePenalty 16 ⟨0, 10, 20⟩ = 20 := by
  have h := claim_C7 ⟨0, 10, 20⟩ (by decide) (by decide)
  exact ⟨h.1 5 (by decide) (by decide),
    h.2.1 (-1) (-2) (Or.inl (by with_unfolding_all decide))
      (Or.inl (by with_unfolding_all decide)) (by with_unfolding_all decide)
      (by with_unfolding_all decide),
    h.2.2 16 (Or.inr (by decide)) (by with_unfolding_all decide)⟩

/-! ## JSNum computation lemmas for the hue block -/

lemma jsDivQ_num (a q : ℚ) (hq : q ≠ 0) : jsDivQ (.num a) q = .num (a / q) := by
  simp [jsDivQ, hq]

lemma hueLoop_num (H : ℚ) (l : List (ℚ × ℚ)) :
    ∀ b0 : ℚ, ∃ dv : ℚ, hueLoop H l (.num b0) = .num dv := by
  induction l with
  | nil => exact fun b0 => ⟨b0, rfl⟩
  | cons s rest ih =>
    intro b0
    by_cases hc : inSector H s.1 s.2
    · exact ⟨0, by simp [hueLoop, hc]⟩
    · obtain ⟨dv, hdv⟩ := ih (min b0 (degToEdgeDistance H s.1 s.2))
      exact ⟨dv, by simpa [hueLoop, hc, jsMin] using hdv⟩

lemma hueSectorDistance_ne_empty (H : ℚ) (l : List (ℚ × ℚ)) (h : l ≠ []) :
    ∃ dv : ℚ, hueSectorDistance H l = .num dv := by
  cases l with
  | nil => exact absurd rfl h
  | cons s rest =>
    by_cases hc : inSector H s.1 s.2
    · exact ⟨0, by simp [hueSectorDistance, hueLoop, hc]⟩
    · obtain ⟨dv, hdv⟩ := hueLoop_num H rest (degToEdgeDistance H s.1 s.2)
      refine ⟨dv, ?_⟩
      simpa [hueSectorDistance, hueLoop, hc, jsMin] using hdv

/-- The effective tolerance is nonzero. -/
lemma tolNe (rule : HueSectorsRule) :
    (if rule.toleranceDegrees = 0 then (60 : ℚ) else rule.toleranceDegrees) ≠ 0 := by
  by_cases h0 : rule.toleranceDegrees = 0 <;> simp [h0]

lemma huePts_eq_num (H : ℚ) (rule : HueSectorsRule) (dv : ℚ)
    (h : hueSectorDistance H rule.sectors = .num dv) :
    huePts H rule =
      .num (min (dv / (if rule.toleranceDegrees = 0 then 60
                       else rule.toleranceDegrees)) 1 * rule.weight) := by
  show jsMulQ (jsMin (jsDivQ (hueSectorDistance H rule.sectors)
      (if rule.toleranceDegrees = 0 then 60 else rule.toleranceDegrees)) (.num 1))
      rule.weight = _
  rw [h, jsDivQ_num dv _ (tolNe rule)]
  rfl

lemma huePts_empty_pos (rule : HueSectorsRule) (he : rule.sectors = [])
    (ht : 0 ≤ rule.toleranceDegrees) (H : ℚ) :
    huePts H rule = .num rule.weight := by
  have htpos : 0 < (if rule.toleranceDegrees = 0 then (60 : ℚ)
      else rule.toleranceDegrees) := by
    by_cases h0 : rule.toleranceDegrees = 0
    · simp [h0]
    · rw [if_neg h0]; exact lt_of_le_of_ne ht (Ne.symm h0)
  show jsMulQ (jsMin (jsDivQ (hueSectorDistance H rule.sectors)
      (if rule.toleranceDegrees = 0 then 60 else rule.toleranceDegrees)) (.num 1))
      rule.weight = _
  rw [he]
  show jsMulQ (jsMin (jsDivQ .posInf _) (.num 1)) rule.weight = _
  rw [show jsDivQ (JSNum.posInf)
      (if rule.toleranceDegrees = 0 then (60 : ℚ) else rule.toleranceDegrees) =
      .posInf by simp [jsDivQ, htpos]]
  show JSNum.num (1 * rule.weight) = _
  rw [one_mul]

lemma huePts_empty_neg (rule : HueSectorsRule) (he : rule.sectors = [])
    (ht : rule.toleranceDegrees < 0) (H : ℚ) :
    huePts H rule = jsMulQ .negInf rule.weight := by
  have h0 : rule.toleranceDegrees ≠ 0 := ne_of_lt ht
  show jsMulQ (jsMin (jsDivQ (hueSectorDistance H rule.sectors)
      (if rule.toleranceDegrees = 0 then 60 else rule.toleranceDegrees)) (.num 1))
      rule.weight = _
  rw [he, if_neg h0]
  show jsMulQ (jsMin (jsDivQ .posInf rule.toleranceDegrees) (.num 1)) rule.weight = _
  rw [show jsDivQ (JSNum.posInf) rule.toleranceDegrees = .negInf by
    simp [jsDivQ, ht, not_lt.mpr (le_of_lt ht)]]
  rfl

lemma huePts_not_nan (H : ℚ) (rule : HueSectorsRule)
    (hgood : ¬(rule.sectors = [] ∧ rule.toleranceDegrees < 0 ∧ rule.weight = 0)) :
    (∃ x : ℚ, huePts H rule = .num x) ∨
      huePts H rule = .posInf ∨ huePts H rule = .negInf := by
  by_cases he : rule.sectors = []
  · by_cases ht : rule.toleranceDegrees < 0
    · have hw : rule.weight ≠ 0 := fun hz => hgood ⟨he, ht, hz⟩
      have hstep := huePts_empty_neg rule he ht H
      rcases lt_or_gt_of_ne hw with hw1 | hw1
      · right; left
        rw [hstep]; simp [jsMulQ, hw1, not_lt.mpr (le_of_lt hw1)]
      · right; right
        rw [hstep]; simp [jsMulQ, hw1]
    · exact Or.inl ⟨rule.weight, huePts_empty_pos rule he (not_lt.mp ht) H⟩
  · obtain ⟨dv, hdv⟩ := hueSectorDistance_ne_empty H rule.sectors he
    exact Or.inl ⟨_, huePts_eq_num H rule dv hdv⟩

/-! ## Score bounds -/

lemma totalPenalty_cases (P : MathPrims) (lab : Lab) (profile : ToneProfile)
    (hgood : ¬(profile.hueSectors.sectors = [] ∧
               profile.hueSectors.toleranceDegrees < 0 ∧
               profile.hueSectors.weight = 0)) :
    (∃ p : ℚ, totalPenalty P lab profile = .num p) ∨
      totalPenalty P lab profile = .posInf ∨
      totalPenalty P lab profile = .negInf := by
  rcases huePts_not_nan (labHue P lab) profile.hueSectors hgood with ⟨x, hx⟩ | hx | hx
  · left
    refine ⟨rangePenalty lab.L profile.lightness +
      rangePenalty (P.hypotQ lab.a lab.b) profile.chroma + x +
      warmthPts lab.b profile.warmthPenalty, ?_⟩
    unfold totalPenalty
    rw [hx]
    rfl
  · right; left
    unfold totalPenalty
    rw [hx]
    rfl
  · right; right
    unfold totalPenalty
    rw [hx]
    rfl

lemma rawScore_cases (P : MathPrims) (lab : Lab) (profile : ToneProfile)
    (hgood : ¬(profile.hueSectors.sectors = [] ∧
               profile.hueSectors.toleranceDegrees < 0 ∧
               profile.hueSectors.weight = 0)) :
    ∃ q : ℚ, rawScore P lab profile = .num q ∧ 0 ≤ q ∧ q ≤ 100 := by
  rcases totalPenalty_cases P lab profile hgood with ⟨p, hp⟩ | hp | hp
  · refine ⟨max 0 (min (100 - p) 100), ?_, le_max_left 0 _, ?_⟩
    · unfold rawScore clamp
      rw [hp]
      rfl
    · exact max_le (by norm_num) (le_trans (min_le_right _ _) (by norm_num))
  · refine ⟨0, ?_, le_refl 0, by norm_num⟩
    unfold rawScore clamp
    rw [hp]
    rfl
  · refine ⟨100, ?_, by norm_num, le_refl 100⟩
    unfold rawScore clamp
    rw [hp]
    rfl

lemma round1_bounds {q : ℚ} (h0 : 0 ≤ q) (h1 : q ≤ 100) :
    0 ≤ round1 q ∧ round1 q ≤ 100 := by
  unfold round1 jsRound
  constructor
  · apply div_nonneg _ (by norm_num : (0 : ℚ) ≤ 10)
    have : (0 : ℤ) ≤ ⌊q * 10 + 1 / 2⌋ := Int.floor_nonneg.mpr (by linarith)
    exact_mod_cast this
  · rw [div_le_iff₀ (by norm_num : (0 : ℚ) < 10)]
    have hlt : ⌊q * 10 + 1 / 2⌋ < 1001 := Int.floor_lt.mpr (by push_cast; linarith)
    have hle : ⌊q * 10 + 1 / 2⌋ ≤ 1000 := by omega
    calc ((⌊q * 10 + 1 / 2⌋ : ℤ) : ℚ) ≤ 1000 := by exact_mod_cast hle
      _ = 100 * 10 := by norm_num

/-- Claim C4 counterexample: with an accepted hex and the profile that has
no hue sectors, tolerance -1 and hue weight 0, the JS arithmetic produces
NaN (Infinity / -1 = -Infinity, then -Infinity * 0 = NaN), so the returned
score is NaN and 0 <= score <= 100 is false. -/
theorem claim_C4_cex :
    scoreOf P0 ("#000000") nanProfile = .nan ∧
    jsLe (.num 0) (scoreOf P0 ("#000000") nanProfile) = false := by
  constructor
  · with_unfolding_all decide
  · with_unfolding_all decide

/-- Claim C4 (amended): for every accepted hex and every profile except
those combining an empty sector list with a negative toleranceDegrees and a
zero hue weight (where the score is NaN), the returned score satisfies
0 <= score <= 100, rounding included. -/
theorem claim_C4 (P : MathPrims) (hex : String) (profile : ToneProfile)
    (hacc : (stripHash hex).length = 3 ∨ (stripHash hex).length = 6)
    (hgood : ¬(profile.hueSectors.sectors = [] ∧
               profile.hueSectors.toleranceDegrees < 0 ∧
               profile.hueSectors.weight = 0)) :
    jsLe (.num 0) (scoreOf P hex profile) = true ∧
    jsLe (scoreOf P hex profile) (.num 100) = true := by
  have hok : exOk (hexToRgb hex) = true := (exOk_hexToRgb hex).mpr hacc
  rcases hrgb : hexToRgb hex with e | rgb
  · rw [hrgb] at hok
    simp [exOk] at hok
  · have hscore : scoreOf P hex profile =
        jsRound1 (rawScore P (rgbToLab P rgb.1 rgb.2.1 rgb.2.2) profile) := by
      simp [scoreOf, evaluateTone, hrgb, evalLab]
    obtain ⟨q, hq, hq0, hq1⟩ := rawScore_cases P _ profile hgood
    obtain ⟨hr0, hr1⟩ := round1_bounds hq0 hq1
    rw [hscore, hq]
    constructor
    · simp [jsRound1, jsLe]
      exact hr0
    · simp [jsRound1, jsLe]
      exact hr1

/-- Claim C4 witness. -/
theorem claim_C4_witness :
    jsLe (.num 0) (scoreOf P0 ("#000000") demoProfile) = true ∧
    jsLe (scoreOf P0 ("#000000") demoProfile) (.num 100) = true :=
  claim_C4 P0 ("#000000") demoProfile (by decide) (by with_unfolding_all decide)

/-! ## Claim C9: empty sector list -/

/-- Claim C9 counterexample: with empty sectors but tolerance -60, the hue
points are -Infinity, not the full weight 10. -/
theorem claim_C9_cex :
    huePts 0 ⟨[], -60, 10⟩ = .negInf ∧ huePts 0 ⟨[], -60, 10⟩ ≠ .num 10 := by
  constructor
  · with_unfolding_all decide
  · with_unfolding_all decide

/-- Claim C9 (amended): for every profile whose sector list is empty and
whose toleranceDegrees is nonnegative (so that the 60-degree fallback or the
positive tolerance applies), and every accepted hex, the hue penalty equals
the full hue weight for every hue, and the note about leaning outside the
hue sectors is present. -/
theorem claim_C9 (P : MathPrims) (hex : String) (profile : ToneProfile)
    (hacc : (stripHash hex).length = 3 ∨ (stripHash hex).length = 6)
    (hemp : profile.hueSectors.sectors = [])
    (htol : 0 ≤ profile.hueSectors.toleranceDegrees) :
    ("leans outside cool hue sectors") ∈ notesOf P hex profile ∧
    ∀ H : ℚ, huePts H profile.hueSectors = .num profile.hueSectors.weight := by
  refine ⟨?_, fun H => huePts_empty_pos _ hemp htol H⟩
  have hok : exOk (hexToRgb hex) = true := (exOk_hexToRgb hex).mpr hacc
  rcases hrgb : hexToRgb hex with e | rgb
  · rw [hrgb] at hok
    simp [exOk] at hok
  · have hnotes : notesOf P hex profile =
        evalNotes P (rgbToLab P rgb.1 rgb.2.1 rgb.2.2) profile := by
      simp [notesOf, evaluateTone, hrgb, evalLab]
    rw [hnotes]
    unfold evalNotes hueNotes
    rw [hemp]
    simp [hueSectorDistance, hueLoop, jsLtQ, List.mem_append]

/-- Claim C9 witness. -/
theorem claim_C9_witness :
    ("leans outside cool hue sectors") ∈ notesOf P0 ("#000000") emptySectorProfile ∧
    huePts 0 emptySectorProfile.hueSectors = .num emptySectorProfile.hueSectors.weight := by
  have h := claim_C9 P0 ("#000000") emptySectorProfile (by decide) rfl (by decide)
  exact ⟨h.1, h.2 0⟩

/-! ## Claim C8: pure black -/

lemma srgbToLinear_zero (P : MathPrims) : srgbToLinear P 0 = 0 := by
  unfold srgbToLinear
  norm_num

lemma labF_zero (P : MathPrims) : labF P 0 = 4 / 29 := by
  unfold labF
  norm_num

lemma rgbToLab_zero (P : MathPrims) : rgbToLab P 0 0 0 = ⟨0, 0, 0⟩ := by
  unfold rgbToLab rgbToXyz xyzToLab
  simp only [srgbToLinear_zero, mul_zero, add_zero, zero_add]
  norm_num [labF_zero]

/-- Claim C8: hex 000000 converts to Lab (0, 0, 0) exactly, with chroma 0
and reported hue 0, for every profile (hence every hue-sector rule).  The
two hypotheses record the ECMAScript guarantees Math.hypot(0,0) = 0 and
Math.atan2(0,0) = 0 for the abstracted primitives. -/
theorem claim_C8 (P : MathPrims) (profile : ToneProfile)
    (hhyp : P.hypotQ 0 0 = 0) (hat : P.atan2deg 0 0 = 0) :
    (evaluateTone P ("#000000") profile).map
      (fun x => (x.1.lab, x.1.chroma, x.1.hue)) = .ok (⟨0, 0, 0⟩, 0, 0) := by
  have hrgb : hexToRgb ("#000000") = .ok (0, 0, 0) := rfl
  have hlab : rgbToLab P ((0 : ℕ) : ℚ) ((0 : ℕ) : ℚ) ((0 : ℕ) : ℚ) = ⟨0, 0, 0⟩ := by
    rw [show (((0 : ℕ) : ℚ)) = (0 : ℚ) by norm_num]
    exact rgbToLab_zero P
  have hhue : labHue P ⟨0, 0, 0⟩ = 0 := by
    unfold labHue
    rw [hat]
    norm_num
  simp only [evaluateTone, hrgb, Except.map, evalLab, hlab]
  have hchroma : round2 (P.hypotQ 0 0) = 0 := by
    rw [hhyp]
    with_unfolding_all decide
  have hhue1 : round1 (labHue P ⟨0, 0, 0⟩) = 0 := by
    rw [hhue]
    with_unfolding_all decide
  rw [hchroma, hhue1]

/-- Claim C8 witness. -/
theorem claim_C8_witness :
    (evaluateTone P0 ("#000000") demoProfile).map
      (fun x => (x.1.lab, x.1.chroma, x.1.hue)) = .ok (⟨0, 0, 0⟩, 0, 0) :=
  claim_C8 P0 demoProfile rfl rfl

/-! ## Claim C6: match-level selection -/

lemma find_desc_max (p : MatchBucket → Bool) :
    ∀ (l : List MatchBucket),
      List.Pairwise (fun a b => b.minScore ≤ a.minScore) l →
      ∀ bk, l.find? p = some bk →
      ∀ bk2 ∈ l, p bk2 = true → bk2.minScore ≤ bk.minScore := by
  intro l
  induction l with
  | nil =>
    intro _ bk h
    cases h
  | cons c rest ih =>
    intro hpw bk hfind bk2 hmem hp2
    rcases List.pairwise_cons.mp hpw with ⟨hc, hrest⟩
    by_cases hpc : p c = true
    · rw [List.find?_cons_of_pos _ hpc] at hfind
      injection hfind with h
      subst h
      rcases List.mem_cons.mp hmem with rfl | hmem
      · exact le_refl _
      · exact hc bk2 hmem
    · rw [List.find?_cons_of_neg _ (by simpa using hpc)] at hfind
      rcases List.mem_cons.mp hmem with rfl | hmem
      · exact absurd hp2 hpc
      · exact ih hrest bk hfind bk2 hmem hp2

/-- Claim C6: the match level is the label of the first bucket, in the
descending-minScore sorted order, whose threshold the raw score reaches
(equivalently, a qualifying bucket of maximal threshold); when no bucket
qualifies, and in particular when the bucket list is empty, the fallback
label is produced and evaluateTone still succeeds. -/
theorem claim_C6 :
    (∀ (score : JSNum) (buckets : List MatchBucket),
      (buckets = [] → matchLevelOf score buckets = ("not a match")) ∧
      ((∀ bk ∈ buckets, jsGeQ score bk.minScore = false) →
        matchLevelOf score buckets = ("not a match")) ∧
      (∀ bk0 ∈ buckets, jsGeQ score bk0.minScore = true →
        ∃ bk ∈ buckets, matchLevelOf score buckets = bk.label ∧
          jsGeQ score bk.minScore = true ∧
          ∀ bk2 ∈ buckets, jsGeQ score bk2.minScore = true →
            bk2.minScore ≤ bk.minScore)) ∧
    (∀ (P : MathPrims) (hex : String) (profile : ToneProfile),
      ((stripHash hex).length = 3 ∨ (stripHash hex).length = 6) →
      profile.matchBuckets = [] →
        exOk (evaluateTone P hex profile) = true ∧
        levelOf P hex profile = ("not a match")) := by
  constructor
  · intro score buckets
    refine ⟨?_, ?_, ?_⟩
    · rintro rfl
      rfl
    · intro hall
      unfold matchLevelOf
      have hnone : (sortBucketsDesc buckets).find?
          (fun bk => jsGeQ score bk.minScore) = none := by
        rw [List.find?_eq_none]
        intro x hx
        have hxb : x ∈ buckets := (sortBucketsDesc_perm buckets).mem_iff.mp hx
        simp [hall x hxb]
      rw [hnone]
    · intro bk0 hbk0 hp0
      have hsome : ((sortBucketsDesc buckets).find?
          (fun bk => jsGeQ score bk.minScore)).isSome := by
        rw [List.find?_isSome]
        exact ⟨bk0, (sortBucketsDesc_perm buckets).mem_iff.mpr hbk0, hp0⟩
      obtain ⟨bk, hfind⟩ := Option.isSome_iff_exists.mp hsome
      refine ⟨bk,
        (sortBucketsDesc_perm buckets).mem_iff.mp (List.mem_of_find?_eq_some hfind),
        ?_, ?_, ?_⟩
      · unfold matchLevelOf
        rw [hfind]
      · simpa using List.find?_some hfind
      · intro bk2 hbk2 hp2
        exact find_desc_max _ _ (sortBucketsDesc_pairwise buckets) bk hfind bk2
          ((sortBucketsDesc_perm buckets).mem_iff.mpr hbk2) hp2
  · intro P hex profile hacc hempty
    have hok : exOk (hexToRgb hex) = true := (exOk_hexToRgb hex).mpr hacc
    rcases hrgb : hexToRgb hex with e | rgb
    · rw [hrgb] at hok
      simp [exOk] at hok
    · constructor
      · rw [exOk_evaluateTone, hrgb]
        rfl
      · simp [levelOf, evaluateTone, hrgb, evalLab, hempty, matchLevelOf,
          sortBucketsDesc]

/-- Claim C6 witness. -/
theorem claim_C6_witness :
    matchLevelOf (.num 50) [] = ("not a match") ∧
    exOk (evaluateTone P0 ("#000000") noBucketProfile) = true ∧
    levelOf P0 ("#000000") noBucketProfile = ("not a match") :=
  ⟨(claim_C6.1 (.num 50) []).1 rfl,
   (claim_C6.2 P0 ("#000000") noBucketProfile (by decide) rfl).1,
   (claim_C6.2 P0 ("#000000") noBucketProfile (by decide) rfl).2⟩

/-! ## Claim C10: the notes list -/

lemma lightNotes_cases (L : ℚ) (rule : RangeRule) (h : rule.min ≤ rule.max) :
    lightNotes L rule = [] ∨ lightNotes L rule = [("too dark for this tone")] ∨
      lightNotes L rule = [("too light/washed")] := by
  unfold lightNotes
  by_cases h1 : L < rule.min
  · have h2 : ¬ L > rule.max := by
      intro h2
      linarith
    right; left
    simp [h1, h2]
  · by_cases h2 : L > rule.max
    · right; right
      simp [h1, h2]
    · left
      simp [h1, h2]

lemma chromaNotes_cases (C : ℚ) (rule : RangeRule) (h : rule.min ≤ rule.max) :
    chromaNotes C rule = [] ∨ chromaNotes C rule = [("too gray/soft")] ∨
      chromaNotes C rule = [("too saturated/bright")] := by
  unfold chromaNotes
  by_cases h1 : C < rule.min
  · have h2 : ¬ C > rule.max := by
      intro h2
      linarith
    right; left
    simp [h1, h2]
  · by_cases h2 : C > rule.max
    · right; right
      simp [h1, h2]
    · left
      simp [h1, h2]

lemma hueNotes_cases (H : ℚ) (rule : HueSectorsRule) :
    hueNotes H rule = [] ∨ hueNotes H rule = [("leans outside cool hue sectors")] := by
  unfold hueNotes
  by_cases h1 : jsLtQ 0 (hueSectorDistance H rule.sectors) = true
  · right
    simp [h1]
  · left
    simp [h1]

lemma warmthNotes_cases (labb : ℚ) (o : Option WarmthPenaltyRule) :
    warmthNotes labb o = [] ∨ warmthNotes labb o = [("yellow warmth present")] := by
  rcases o with _ | w
  · left
    rfl
  · unfold warmthNotes
    by_cases hb : labb > w.lab_b_gt
    · right
      simp [hb]
    · left
      simp [hb]

/-- Claim C10: for a valid hex and well-formed lightness and chroma rules,
the notes list is a sublist of the six possible notes in their fixed push
order, has at most 4 entries, and never contains both notes of the same
rule. -/
theorem claim_C10 (P : MathPrims) (hex : String) (profile : ToneProfile)
    (hacc : (stripHash hex).length = 3 ∨ (stripHash hex).length = 6)
    (hl : profile.lightness.min ≤ profile.lightness.max)
    (hc : profile.chroma.min ≤ profile.chroma.max) :
    List.Sublist (notesOf P hex profile)
      [("too dark for this tone"), ("too light/washed"), ("too gray/soft"),
       ("too saturated/bright"), ("leans outside cool hue sectors"),
       ("yellow warmth present")] ∧
    (notesOf P hex profile).length ≤ 4 ∧
    ¬(("too dark for this tone") ∈ notesOf P hex profile ∧
      ("too light/washed") ∈ notesOf P hex profile) ∧
    ¬(("too gray/soft") ∈ notesOf P hex profile ∧
      ("too saturated/bright") ∈ notesOf P hex profile) := by
  have hok : exOk (hexToRgb hex) = true := (exOk_hexToRgb hex).mpr hacc
  rcases hrgb : hexToRgb hex with e | rgb
  · rw [hrgb] at hok
    simp [exOk] at hok
  · have hnotes : notesOf P hex profile =
        evalNotes P (rgbToLab P rgb.1 rgb.2.1 rgb.2.2) profile := by
      simp [notesOf, evaluateTone, hrgb, evalLab]
    rw [hnotes]
    unfold evalNotes
    rcases lightNotes_cases (rgbToLab P rgb.1 rgb.2.1 rgb.2.2).L
        profile.lightness hl with hA | hA | hA <;>
    rcases chromaNotes_cases
        (P.hypotQ (rgbToLab P rgb.1 rgb.2.1 rgb.2.2).a
          (rgbToLab P rgb.1 rgb.2.1 rgb.2.2).b)
        profile.chroma hc with hB | hB | hB <;>
    rcases hueNotes_cases (labHue P (rgbToLab P rgb.1 rgb.2.1 rgb.2.2))
        profile.hueSectors with hC | hC <;>
    rcases warmthNotes_cases (rgbToLab P rgb.1 rgb.2.1 rgb.2.2).b
        profile.warmthPenalty with hD | hD <;>
    rw [hA, hB, hC, hD] <;>
    decide

/-- Claim C10 witness: the profile that triggers all four notes at once. -/
theorem claim_C10_witness :
    List.Sublist (notesOf P0 ("#000000") fourNoteProfile)
      [("too dark for this tone"), ("too light/washed"), ("too gray/soft"),
       ("too saturated/bright"), ("leans outside cool hue sectors"),
       ("yellow warmth present")] ∧
    (notesOf P0 ("#000000") fourNoteProfile).length ≤ 4 :=
  ⟨(claim_C10 P0 ("#000000") fourNoteProfile (by decide) (by decide) (by decide)).1,
   (claim_C10 P0 ("#000000") fourNoteProfile (by decide) (by decide) (by decide)).2.1⟩

/-! ## Claim C5: hue-sector distance and penalty -/

lemma fmod360_nonneg (q : ℚ) : 0 ≤ fmod360 q := by
  unfold fmod360
  have h : ((⌊q / 360⌋ : ℚ)) * 360 ≤ q := by
    rw [← le_div_iff₀ (by norm_num : (0 : ℚ) < 360)]
    exact Int.floor_le (q / 360)
  linarith

lemma fmod360_lt (q : ℚ) : fmod360 q < 360 := by
  unfold fmod360
  have h : q / 360 < (⌊q / 360⌋ : ℚ) + 1 := Int.lt_floor_add_one (q / 360)
  have h2 : q < ((⌊q / 360⌋ : ℚ) + 1) * 360 := by
    rw [← div_lt_iff₀ (by norm_num : (0 : ℚ) < 360)]
    exact h
  linarith

lemma fmod360_eq_self {q : ℚ} (h0 : 0 ≤ q) (h1 : q < 360) : fmod360 q = q := by
  unfold fmod360
  have hfloor : ⌊q / 360⌋ = 0 := by
    rw [Int.floor_eq_zero_iff]
    constructor
    · exact div_nonneg h0 (by norm_num)
    · exact (div_lt_one (by norm_num : (0 : ℚ) < 360)).mpr h1
  rw [hfloor]
  push_cast
  ring

lemma circDistJS_eq_spec (x y : ℚ) : circDistJS x y = specCircDist x y := by
  unfold circDistJS specCircDist
  have h0 : 0 ≤ fmod360 |x - y| := fmod360_nonneg _
  have h1 : fmod360 |x - y| < 360 := fmod360_lt _
  by_cases h : fmod360 |x - y| > 180
  · rw [if_pos h, min_eq_right (by linarith)]
  · rw [if_neg h, min_eq_left (by linarith)]

lemma degToEdge_eq (h : ℚ) (s : ℚ × ℚ) :
    degToEdgeDistance h s.1 s.2 = specEdgeDist h s := by
  unfold degToEdgeDistance specEdgeDist
  rw [circDistJS_eq_spec, circDistJS_eq_spec]

lemma specCircDist_pos {x y : ℚ} (hx0 : 0 ≤ x) (hx1 : x < 360)
    (hy0 : 0 ≤ y) (hy1 : y < 360) (hne : x ≠ y) : 0 < specCircDist x y := by
  have habs1 : |x - y| < 360 := abs_sub_lt_iff.mpr ⟨by linarith, by linarith⟩
  unfold specCircDist
  rw [fmod360_eq_self (abs_nonneg _) habs1]
  exact lt_min (abs_pos.mpr (sub_ne_zero.mpr hne)) (by linarith)

lemma inSector_left (h b : ℚ) : inSector h h b = true := by
  unfold inSector
  by_cases hab : h ≤ b
  · rw [if_pos hab]
    simp [hab]
  · rw [if_neg hab]
    simp

lemma inSector_right (h a : ℚ) : inSector h a h = true := by
  unfold inSector
  by_cases hab : a ≤ h
  · rw [if_pos hab]
    simp [hab]
  · rw [if_neg hab]
    simp

lemma inSector_iff (h : ℚ) (s : ℚ × ℚ) :
    inSector h s.1 s.2 = true ↔ specContains h s := by
  unfold inSector specContains
  by_cases hab : s.1 ≤ s.2 <;> simp [hab]

lemma specEdgeDist_pos {H a b : ℚ}
    (hH0 : 0 ≤ H) (hH1 : H < 360)
    (ha0 : 0 ≤ a) (ha1 : a < 360) (hb0 : 0 ≤ b) (hb1 : b < 360)
    (hnc : ¬ specContains H (a, b)) : 0 < specEdgeDist H (a, b) := by
  have h1 : H ≠ a := by
    intro heq
    apply hnc
    apply (inSector_iff H (a, b)).mp
    show inSector H a b = true
    rw [← heq]
    exact inSector_left H b
  have h2 : H ≠ b := by
    intro heq
    apply hnc
    apply (inSector_iff H (a, b)).mp
    show inSector H a b = true
    rw [← heq]
    exact inSector_right H a
  exact lt_min (specCircDist_pos hH0 hH1 ha0 ha1 h1)
    (specCircDist_pos hH0 hH1 hb0 hb1 h2)

lemma hueLoop_contained (H : ℚ) :
    ∀ (l : List (ℚ × ℚ)) (best : JSNum),
      (∃ s ∈ l, inSector H s.1 s.2 = true) → hueLoop H l best = .num 0 := by
  intro l
  induction l with
  | nil =>
    rintro best ⟨s, hs, _⟩
    cases hs
  | cons c rest ih =>
    rintro best ⟨s, hs, hins⟩
    by_cases hc : inSector H c.1 c.2
    · simp [hueLoop, hc]
    · rcases List.mem_cons.mp hs with rfl | hs
      · exact absurd hins hc
      · simp only [hueLoop, hc, Bool.false_eq_true, if_false]
        exact ih _ ⟨s, hs, hins⟩

lemma hueLoop_fold (H : ℚ) :
    ∀ (l : List (ℚ × ℚ)), (∀ s ∈ l, inSector H s.1 s.2 = false) →
      ∀ b0 : ℚ, hueLoop H l (.num b0) =
        .num (l.foldl (fun acc s => min acc (degToEdgeDistance H s.1 s.2)) b0) := by
  intro l
  induction l with
  | nil =>
    intro _ b0
    rfl
  | cons c rest ih =>
    intro hno b0
    have hc : inSector H c.1 c.2 = false := hno c (List.mem_cons_self c rest)
    rw [List.foldl_cons]
    show (if inSector H c.1 c.2 = true then JSNum.num 0
      else hueLoop H rest (jsMin (.num b0) (.num (degToEdgeDistance H c.1 c.2)))) = _
    rw [if_neg (by simp [hc])]
    rw [show jsMin (JSNum.num b0) (.num (degToEdgeDistance H c.1 c.2)) =
      .num (min b0 (degToEdgeDistance H c.1 c.2)) from rfl]
    exact ih (fun s hs => hno s (List.mem_cons_of_mem c hs)) _

lemma foldlMin_le_init (f : ℚ × ℚ → ℚ) :
    ∀ (l : List (ℚ × ℚ)) (b0 : ℚ),
      l.foldl (fun acc s => min acc (f s)) b0 ≤ b0 := by
  intro l
  induction l with
  | nil =>
    intro b0
    exact le_refl b0
  | cons c rest ih =>
    intro b0
    rw [List.foldl_cons]
    exact le_trans (ih _) (min_le_left _ _)

lemma foldlMin_le_mem (f : ℚ × ℚ → ℚ) :
    ∀ (l : List (ℚ × ℚ)) (b0 : ℚ) (s : ℚ × ℚ), s ∈ l →
      l.foldl (fun acc s => min acc (f s)) b0 ≤ f s := by
  intro l
  induction l with
  | nil =>
    intro b0 s hs
    cases hs
  | cons c rest ih =>
    intro b0 s hs
    rw [List.foldl_cons]
    rcases List.mem_cons.mp hs with rfl | hs
    · exact le_trans (foldlMin_le_init f rest _) (min_le_right _ _)
    · exact ih _ s hs

lemma foldlMin_attained (f : ℚ × ℚ → ℚ) :
    ∀ (l : List (ℚ × ℚ)) (b0 : ℚ),
      l.foldl (fun acc s => min acc (f s)) b0 = b0 ∨
      ∃ s ∈ l, l.foldl (fun acc s => min acc (f s)) b0 = f s := by
  intro l
  induction l with
  | nil =>
    intro b0
    exact Or.inl rfl
  | cons c rest ih =>
    intro b0
    rcases ih (min b0 (f c)) with h | ⟨s, hs, h⟩
    · rcases min_cases b0 (f c) with ⟨hmin, _⟩ | ⟨hmin, _⟩
      · left
        rw [List.foldl_cons, h, hmin]
      · right
        exact ⟨c, List.mem_cons_self _ _, by rw [List.foldl_cons, h, hmin]⟩
    · right
      exact ⟨s, List.mem_cons_of_mem _ hs, by rw [List.foldl_cons]; exact h⟩

/-- Claim C5: for hues in [0, 360) and sector bounds in [0, 360) with at
least one sector, the code's containment test agrees with the spec's
wrap-around wording; the sector distance is 0 exactly when some sector
contains the hue and otherwise is the positive minimum over all sectors of
the shortest circular distance to a sector edge; and the hue penalty is
min (d / tolerance, 1) * weight with tolerance falling back to 60 when
zero. -/
theorem claim_C5 (H : ℚ) (rule : HueSectorsRule)
    (hH0 : 0 ≤ H) (hH1 : H < 360)
    (hne : rule.sectors ≠ [])
    (hbounds : ∀ s ∈ rule.sectors, 0 ≤ s.1 ∧ s.1 < 360 ∧ 0 ≤ s.2 ∧ s.2 < 360) :
    (∀ s ∈ rule.sectors, (inSector H s.1 s.2 = true ↔ specContains H s)) ∧
    ((∃ s ∈ rule.sectors, specContains H s) →
      hueSectorDistance H rule.sectors = .num 0) ∧
    ((∀ s ∈ rule.sectors, ¬ specContains H s) →
      ∃ s ∈ rule.sectors, hueSectorDistance H rule.sectors = .num (specEdgeDist H s) ∧
        0 < specEdgeDist H s ∧
        ∀ s2 ∈ rule.sectors, specEdgeDist H s ≤ specEdgeDist H s2) ∧
    (∀ dv : ℚ, hueSectorDistance H rule.sectors = .num dv →
      huePts H rule =
        .num (min (dv / (if rule.toleranceDegrees = 0 then 60
                         else rule.toleranceDegrees)) 1 * rule.weight)) := by
  refine ⟨fun s _ => inSector_iff H s, ?_, ?_, fun dv hdv => huePts_eq_num H rule dv hdv⟩
  · rintro ⟨s, hs, hcont⟩
    exact hueLoop_contained H rule.sectors .posInf
      ⟨s, hs, (inSector_iff H s).mpr hcont⟩
  · intro hnc
    have hno : ∀ s ∈ rule.sectors, inSector H s.1 s.2 = false := by
      intro s hs
      have := hnc s hs
      rcases hb : inSector H s.1 s.2 with _ | _
      · rfl
      · exact absurd ((inSector_iff H s).mp hb) this
    rcases hsec : rule.sectors with _ | ⟨c, rest⟩
    · exact absurd hsec hne
    · rw [hsec] at hno hnc hbounds
      have hd : hueSectorDistance H (c :: rest) =
          .num (rest.foldl (fun acc s => min acc (degToEdgeDistance H s.1 s.2))
            (degToEdgeDistance H c.1 c.2)) := by
        have hc : inSector H c.1 c.2 = false := hno c (List.mem_cons_self c rest)
        show (if inSector H c.1 c.2 = true then JSNum.num 0
          else hueLoop H rest (jsMin .posInf (.num (degToEdgeDistance H c.1 c.2)))) = _
        rw [if_neg (by simp [hc])]
        rw [show jsMin JSNum.posInf (.num (degToEdgeDistance H c.1 c.2)) =
          .num (degToEdgeDistance H c.1 c.2) from rfl]
        exact hueLoop_fold H rest (fun s hs => hno s (List.mem_cons_of_mem c hs)) _
      have hposD : ∀ s ∈ c :: rest, 0 < specEdgeDist H s := by
        intro s hs
        obtain ⟨hb1, hb2, hb3, hb4⟩ := hbounds s hs
        have : ¬ specContains H (s.1, s.2) := by
          intro hcc
          exact hnc s hs hcc
        exact specEdgeDist_pos hH0 hH1 hb1 hb2 hb3 hb4 this
      rcases foldlMin_attained (fun s => degToEdgeDistance H s.1 s.2) rest
          (degToEdgeDistance H c.1 c.2) with hat | ⟨s, hs, hat⟩
      · refine ⟨c, List.mem_cons_self c rest, ?_, ?_, ?_⟩
        · rw [hd, hat, degToEdge_eq]
        · exact hposD c (List.mem_cons_self c rest)
        · intro s2 hs2
          rcases List.mem_cons.mp hs2 with rfl | hs2
          · exact le_refl _
          · have := foldlMin_le_mem (fun s => degToEdgeDistance H s.1 s.2) rest
              (degToEdgeDistance H c.1 c.2) s2 hs2
            rw [hat] at this
            rw [← degToEdge_eq H c, ← degToEdge_eq H s2]
            exact this
      · refine ⟨s, List.mem_cons_of_mem c hs, ?_, ?_, ?_⟩
        · rw [hd, hat, degToEdge_eq]
        · exact hposD s (List.mem_cons_of_mem c hs)
        · intro s2 hs2
          have hgoal : rest.foldl (fun acc s => min acc (degToEdgeDistance H s.1 s.2))
              (degToEdgeDistance H c.1 c.2) ≤ degToEdgeDistance H s2.1 s2.2 := by
            rcases List.mem_cons.mp hs2 with rfl | hs2
            · exact foldlMin_le_init _ rest _
            · exact foldlMin_le_mem _ rest _ s2 hs2
          rw [hat] at hgoal
          rw [← degToEdge_eq H s, ← degToEdge_eq H s2]
          exact hgoal

/-- Claim C5 witness: hue 90 against a single cool sector. -/
theorem claim_C5_witness :
    huePts 90 ⟨[(180, 255)], 60, 10⟩ =
      .num (min ((90 : ℚ) / 60) 1 * 10) := by
  have h := claim_C5 90 ⟨[(180, 255)], 60, 10⟩ (by norm_num) (by norm_num)
    (by simp) (by intro s hs; simp at hs; rw [hs]; norm_num)
  have h2 := h.2.2.2 90 (by with_unfolding_all decide)
  simpa using h2
